import Mathlib

/-!
Shallow embedding of the font-renderer tool (src/main.cpp).

The tool turns command-line arguments
  prog ascii-from ascii-to cpp-type arr-name [fontName size ...]
into a textual C++ array literal of per-character intensity bitmaps.

External Qt capabilities (font metrics, glyph rasterization) are modelled
as an abstract environment `QtEnv`: the pixel read back from the canvas
after drawing character `c` of font `(name, size)` at position `(x, y)`
is `env.pixel name size c x y`, a QRgb value as a natural number.
Machine integers are modelled as `Nat` with explicit `% 2 ^ w` where
wraparound matters (the `uint8_t` loop counter of `getCharacters`, the
unsigned-long range of `std::stoul`).
-/

namespace FontRenderer

/-- Exceptions `std::stoul` can throw: `std::invalid_argument` when no
conversion can be performed, `std::out_of_range` when the value does not
fit in `unsigned long`. -/
inductive PErr where
  | invalidArgument
  | outOfRange
deriving DecidableEq

/-- Whitespace characters skipped by `strtoul` (C locale `isspace`). -/
def isSpaceChar (c : Char) : Bool :=
  c == ' ' || c == '\t' || c == '\n' || c == '\x0b' || c == '\x0c' || c == '\r'

/-- Decimal value of a digit string. -/
def digitsToNat (ds : List Char) : Nat :=
  ds.foldl (fun a c => a * 10 + (c.toNat - 48)) 0

/-- Model of `std::stoul(s)` (base 10, 64-bit `unsigned long`): skip
leading whitespace, read an optional sign, then a nonempty digit run;
`invalid_argument` when no digits are found, `out_of_range` when the
magnitude exceeds `ULONG_MAX`, and unsigned negation for a minus sign. -/
def stoul (s : String) : Except PErr Nat :=
  let s1 := s.data.dropWhile (fun c => isSpaceChar c)
  let signNeg : Bool := match s1 with
    | c :: _ => c == '-'
    | [] => false
  let s2 := match s1 with
    | c :: r => if c == '-' || c == '+' then r else s1
    | [] => s1
  let ds := s2.takeWhile (fun c => c.isDigit)
  if ds.isEmpty then .error .invalidArgument
  else
    let v := digitsToNat ds
    if v ≤ 2 ^ 64 - 1 then
      .ok (if signNeg then (2 ^ 64 - v % 2 ^ 64) % 2 ^ 64 else v)
    else .error .outOfRange

/-- `normalize(color, ceiling)` from src/main.cpp lines 78-84: extract the
red, green and blue bytes of the QRgb value (`(color & 0x00FF0000) >> 16`
is `color / 2 ^ 16 % 2 ^ 8`, and so on) and rescale their sum so that
black maps to 0 and white to `ceiling`; `int` division truncates, which
on these non-negative values is `Nat` floor division. -/
def normalize (color : Nat) (ceiling : Nat) : Nat :=
  let red := color / 2 ^ 16 % 2 ^ 8
  let green := color / 2 ^ 8 % 2 ^ 8
  let blue := color % 2 ^ 8
  (red + green + blue) * ceiling / (3 * 0xFF)

/-- Qt's `qRgb(r, g, b)`: an ARGB32 word with alpha `0xFF` and the three
channel bytes (each masked to 8 bits). -/
def qRgb (r g b : Nat) : Nat :=
  0xFF000000 + (r % 2 ^ 8) * 2 ^ 16 + (g % 2 ^ 8) * 2 ^ 8 + b % 2 ^ 8

/-- The loop of `getCharacters(from, to)` (src/main.cpp lines 44-52):
`for (uint8_t c = from; c <= to; ++c) result += c;`.  The counter is an
8-bit unsigned value, so `++c` is `(c + 1) % 256`.  The loop need not
terminate (with `to = 255` the guard always holds), so the model is
fuelled: one unit of fuel per iteration, `none` when fuel runs out while
the guard still holds. -/
def getCharsFuel : Nat → Nat → Nat → Option (List Nat)
  | 0, c, t => if c ≤ t then none else some []
  | fuel + 1, c, t =>
      if c ≤ t then (getCharsFuel fuel ((c + 1) % 256) t).map (fun l => c :: l)
      else some []

/-- The loop of `getCharacters` diverges: no amount of fuel makes it
return. -/
def charLoopDiverges (f t : Nat) : Prop :=
  ∀ fuel, getCharsFuel fuel f t = none

/-- Per-font geometry returned by `QFontMetrics`: `height()`,
`maxWidth()`, `overlinePos()`. -/
structure Metrics where
  height : Nat
  maxWidth : Nat
  overlinePos : Nat

/-- Abstract model of the external Qt capabilities consumed by the tool:
font metrics per `(name, size)`, per-character advance width
(`metrics.width(c)`), and the QRgb value read back from the canvas after
the glyph is drawn (`image.pixel(x, y)` in `appendFontBitmap`). -/
structure QtEnv where
  metrics : String → Int → Metrics
  charWidth : String → Int → Nat → Nat
  pixel : String → Int → Nat → Nat → Nat → Nat

/-- One character's bitmap: its advance width and the row-major grid of
normalized intensities. -/
structure CharBitmap where
  width : Nat
  rows : List (List Nat)
deriving DecidableEq

/-- One emitted font table: the fields printed by `appendFontBitmap`
(name, size, line height, range) and the ordered character bitmaps. -/
structure FontTable where
  name : String
  size : Int
  height : Nat
  rFrom : Nat
  rTo : Nat
  bitmaps : List CharBitmap
deriving DecidableEq

/-- The per-character body of `appendFontBitmap`'s loop (src/main.cpp
lines 143-165): width is `metrics.width(c)`; the grid has one row per
`y` in `[0, height)` and one cell per `x` in `[0, width)`, each cell
`normalize(image.pixel(x, y), 255)`. -/
def buildCharBitmap (env : QtEnv) (name : String) (size : Int) (height : Nat)
    (c : Nat) : CharBitmap :=
  let w := env.charWidth name size c
  { width := w
    rows := (List.range height).map (fun y =>
      (List.range w).map (fun x => normalize (env.pixel name size c x y) 255)) }

/-- The font table produced by one `appendFontBitmap(characters, font,
desc)` call: metrics are queried once, then one bitmap per character of
`cs`, in order. -/
def buildFontTable (env : QtEnv) (name : String) (size : Int) (f t : Nat)
    (cs : List Nat) : FontTable :=
  let m := env.metrics name size
  { name := name
    size := size
    height := m.height
    rFrom := f
    rTo := t
    bitmaps := cs.map (buildCharBitmap env name size m.height) }

/-- The lines printed for one character bitmap (src/main.cpp lines
151-164): opening brace, width, inner brace, one line per row with every
cell followed by a comma, inner closing brace, then `},`. -/
def serializeBitmap (bm : CharBitmap) : List String :=
  ["\t\t\t\x7b", "\t\t\t\t" ++ toString bm.width ++ ",", "\t\t\t\t\x7b"]
  ++ bm.rows.map (fun row =>
      "\t\t\t\t\t" ++ String.join (row.map (fun v => toString v ++ ",")))
  ++ ["\t\t\t\t\x7d", "\t\t\t\x7d,"]

/-- The lines printed by `appendFontBitmap` for one font table
(src/main.cpp lines 135-168): quoted name, size, height, range.from,
range.to, the bitmaps, then `\t\t}` and `\t}` — note the entry's closing
brace is printed without a trailing comma. -/
def serializeFontTable (ft : FontTable) : List String :=
  ["\t\x7b",
   "\t\t\"" ++ ft.name ++ "\",",
   "\t\t" ++ toString ft.size ++ ",",
   "\t\t" ++ toString ft.height ++ ",",
   "\t\t" ++ toString ft.rFrom ++ ",",
   "\t\t" ++ toString ft.rTo ++ ","]
  ++ ["\t\t\x7b"]
  ++ ft.bitmaps.flatMap serializeBitmap
  ++ ["\t\t\x7d", "\t\x7d"]

/-- The assignment `desc.size = number` (src/main.cpp line 215):
`number` is the `unsigned long` returned by `stoul`, `desc.size` is an
`int` (src/main.cpp line 30), so the value is narrowed to 32 bits with
two's-complement wraparound — values with bit 31 set become negative. -/
def toIntCpp (n : Nat) : Int :=
  if n % 2 ^ 32 < 2 ^ 31 then (n % 2 ^ 32 : Int)
  else (n % 2 ^ 32 : Int) - 2 ^ 32

/-- One iteration of the token loop of `main` (src/main.cpp lines
211-228).  State is `(desc.name, desc.size)`.  `stoul` success: record
the size — narrowed from `unsigned long` to `int` by `toIntCpp` — and,
when the name is nonempty, emit one font table carrying that narrowed
size.  `stoul` throwing `invalid_argument` is caught: the token becomes
the font name.  `out_of_range` is not caught — the model returns `none`
(the process dies with an uncaught exception). -/
def seqStep (env : QtEnv) (f t : Nat) (cs : List Nat) (st : String × Int)
    (tok : String) : Option ((String × Int) × List FontTable) :=
  match stoul tok with
  | .ok n => some ((st.1, toIntCpp n),
      if st.1 = "" then [] else [buildFontTable env st.1 (toIntCpp n) f t cs])
  | .error .invalidArgument => some ((tok, st.2), [])
  | .error .outOfRange => none

/-- The whole token loop: process tokens left to right, collecting the
emitted font tables in order; the `Bool` is `true` when an uncaught
exception terminated the loop (tables emitted before that point are
kept, as they were already printed). -/
def seqRun (env : QtEnv) (f t : Nat) (cs : List Nat) :
    String × Int → List String → List FontTable × Bool
  | _, [] => ([], false)
  | st, tok :: rest =>
      match seqStep env f t cs st tok with
      | none => ([], true)
      | some (st', out) =>
          let r := seqRun env f t cs st' rest
          (out ++ r.1, r.2)

/-- The coercion `from <= 255 ? static_cast<uint8_t>(from) : 0` from
src/main.cpp lines 198-199. -/
def coerce255 (v : Nat) : Nat :=
  if v ≤ 255 then v else 0

/-- The usage line printed when fewer than 7 arguments are supplied
(src/main.cpp lines 187-189). -/
def usageMsg (prog : String) : String :=
  "Basic usage: " ++ prog ++
    " [ascii-from] [ascii-to] [cpp-type] [arr-name] [[font-name] [font-size] ..]"

/-- How a run of the process ends: normal exits with `EXIT_SUCCESS` or
`EXIT_FAILURE`, death by an uncaught exception, or non-termination. -/
inductive Outcome where
  | success
  | failure
  | crash
  | diverges
deriving DecidableEq

/-- Result of a run: how it ended and the lines written to standard
output before that point. -/
structure RunResult where
  outcome : Outcome
  output : List String
deriving DecidableEq

/-- `main` after the two `stoul` calls succeeded with `f` and `t`
(src/main.cpp lines 197-232): coerce both to 0..255, fail (printing
nothing) when `from > to`, collect the characters (diverging when the
loop never exits; fuel 256 is enough for every terminating case since at
most 256 iterations can precede the first wraparound already covered by
the divergence case), print the opening declaration and `{`, run the
token loop, and print `};` on normal completion.  The initial sequencer
state is the default-constructed empty `desc.name`; `desc.size` is
indeterminate in the C++ but is always written before it is read, so the
model's initial 0 is unobservable. -/
def mainAfterParse (env : QtEnv) (ty nm : String) (fontArgs : List String)
    (f t : Nat) : RunResult :=
  let dF := coerce255 f
  let dT := coerce255 t
  if dF > dT then ⟨.failure, []⟩
  else
    match getCharsFuel 256 dF dT with
    | none => ⟨.diverges, []⟩
    | some cs =>
        let openL := [ty ++ " " ++ nm ++ " = ", "\x7b"]
        let r := seqRun env dF dT cs ("", 0) fontArgs
        if r.2 then ⟨.crash, openL ++ (r.1.map serializeFontTable).flatten⟩
        else ⟨.success, openL ++ (r.1.map serializeFontTable).flatten ++ ["\x7d;"]⟩

/-- `main(argc, argv)` (src/main.cpp lines 180-233): with fewer than 7
arguments print the usage message and fail; otherwise parse `argv[1]`
and `argv[2]` with unguarded `stoul` calls (any exception is uncaught:
the process dies having printed nothing), then continue with
`mainAfterParse`.  The final catch-all branch is unreachable: a list of
length at least 7 always matches the first pattern. -/
def mainRun (env : QtEnv) (args : List String) : RunResult :=
  if args.length < 7 then ⟨.failure, [usageMsg (args.headD "")]⟩
  else
    match args with
    | _prog :: a1 :: a2 :: ty :: nm :: rest =>
        (match stoul a1 with
         | .error _ => ⟨.crash, []⟩
         | .ok f =>
             match stoul a2 with
             | .error _ => ⟨.crash, []⟩
             | .ok t => mainAfterParse env ty nm rest f t)
    | _ => ⟨.crash, []⟩

/-- A concrete environment for evaluating the model: every font has line
height 1 and every character width 1, and every sampled pixel is opaque
white. -/
def envTest : QtEnv :=
  { metrics := fun _ _ => ⟨1, 1, 1⟩
    charWidth := fun _ _ _ => 1
    pixel := fun _ _ _ _ _ => 0xFFFFFFFF }

/-- An environment whose advance widths vary with the character, used to
exhibit that bitmaps of one font table may differ in width. -/
def envVarWidth : QtEnv :=
  { metrics := fun _ _ => ⟨2, 3, 1⟩
    charWidth := fun _ _ c => c
    pixel := fun _ _ _ _ _ => 0 }

/-! Helper lemmas about the fuelled character-collection loop. -/

lemma getCharsFuel_exit (fuel c t : Nat) (h : t < c) :
    getCharsFuel fuel c t = some [] := by
  cases fuel <;> simp [getCharsFuel, Nat.not_le.2 h]

lemma getCharsFuel_term :
    ∀ (fuel c t : Nat), t ≤ 254 → c ≤ t → t + 1 - c ≤ fuel →
      getCharsFuel fuel c t = some (List.range' c (t + 1 - c)) := by
  intro fuel
  induction fuel with
  | zero => intro c t _ hct hfuel; omega
  | succ n ih =>
    intro c t h254 hct hfuel
    have hmod : (c + 1) % 256 = c + 1 := Nat.mod_eq_of_lt (by omega)
    have hstep : getCharsFuel (n + 1) c t
        = (getCharsFuel n ((c + 1) % 256) t).map (fun l => c :: l) := by
      simp [getCharsFuel, hct]
    by_cases hc : c = t
    · subst hc
      have hrec : getCharsFuel n ((c + 1) % 256) c = some [] := by
        rw [hmod]; exact getCharsFuel_exit n (c + 1) c (by omega)
      rw [hstep, hrec]
      rw [show c + 1 - c = 1 by omega]
      simp [List.range'_succ]
    · have h1 : c + 1 ≤ t := by omega
      have hrec := ih (c + 1) t h254 h1 (by omega)
      rw [hstep, hmod, hrec, Option.map_some']
      rw [show t + 1 - c = (t - c) + 1 by omega, List.range'_succ,
        show t + 1 - (c + 1) = t - c by omega]

lemma getCharsFuel_none :
    ∀ (fuel c t : Nat), t ≤ 255 → c + fuel ≤ t → getCharsFuel fuel c t = none := by
  intro fuel
  induction fuel with
  | zero => intro c t _ h; simp [getCharsFuel, show c ≤ t by omega]
  | succ n ih =>
    intro c t h255 h
    have hmod : (c + 1) % 256 = c + 1 := Nat.mod_eq_of_lt (by omega)
    have hrec := ih (c + 1) t h255 (by omega)
    have hstep : getCharsFuel (n + 1) c t
        = (getCharsFuel n ((c + 1) % 256) t).map (fun l => c :: l) := by
      simp [getCharsFuel, show c ≤ t by omega]
    rw [hstep, hmod, hrec]
    rfl

lemma getCharsFuel_div255 :
    ∀ (fuel c : Nat), c ≤ 255 → getCharsFuel fuel c 255 = none := by
  intro fuel
  induction fuel with
  | zero => intro c h; simp [getCharsFuel, h]
  | succ n ih =>
    intro c h
    have hnext : (c + 1) % 256 ≤ 255 := by
      have := Nat.mod_lt (c + 1) (show 0 < 256 by omega)
      omega
    simp [getCharsFuel, h, ih ((c + 1) % 256) hnext]

/-! Helper lemmas about `normalize` on channel triples. -/

lemma normalize_qRgb (r g b c : Nat) (hr : r ≤ 255) (hg : g ≤ 255) (hb : b ≤ 255) :
    normalize (qRgb r g b) c = (r + g + b) * c / (3 * 0xFF) := by
  have hrm : r % 2 ^ 8 = r := Nat.mod_eq_of_lt (by omega)
  have hgm : g % 2 ^ 8 = g := Nat.mod_eq_of_lt (by omega)
  have hbm : b % 2 ^ 8 = b := Nat.mod_eq_of_lt (by omega)
  simp only [normalize, qRgb, hrm, hgm, hbm]
  have h1 : (0xFF000000 + r * 2 ^ 16 + g * 2 ^ 8 + b) / 2 ^ 16 % 2 ^ 8 = r := by
    omega
  have h2 : (0xFF000000 + r * 2 ^ 16 + g * 2 ^ 8 + b) / 2 ^ 8 % 2 ^ 8 = g := by
    omega
  have h3 : (0xFF000000 + r * 2 ^ 16 + g * 2 ^ 8 + b) % 2 ^ 8 = b := by
    omega
  rw [h1, h2, h3]

/-- Claim C3: for every pixel sample with red, green and blue channels in
0..255 and ceiling 255, `normalize` returns the floor of
`(red + green + blue) * ceiling / (3 * 255)`, an integer in `[0, 255]`
(it is a total function, so there is no error condition). -/
theorem C3_normalize_value (r g b : Nat) (hr : r ≤ 255) (hg : g ≤ 255) (hb : b ≤ 255) :
    normalize (qRgb r g b) 255 = (r + g + b) * 255 / (3 * 255) ∧
    normalize (qRgb r g b) 255 ≤ 255 := by
  have h := normalize_qRgb r g b 255 hr hg hb
  refine ⟨h, ?_⟩
  rw [h]
  omega

/-- Witness for C3 at the concrete sample (10, 20, 30). -/
theorem C3_normalize_value_witness :
    normalize (qRgb 10 20 30) 255 = (10 + 20 + 30) * 255 / (3 * 255) ∧
    normalize (qRgb 10 20 30) 255 ≤ 255 :=
  C3_normalize_value 10 20 30 (by decide) (by decide) (by decide)

/-- Claim C7: with ceiling 255, `normalize` maps the all-zero sample to 0,
the all-255 sample to 255, and is monotonic non-decreasing in each of the
red, green and blue channels separately. -/
theorem C7_normalize_monotone :
    normalize (qRgb 0 0 0) 255 = 0 ∧
    normalize (qRgb 255 255 255) 255 = 255 ∧
    (∀ r r' g b, r ≤ 255 → r' ≤ 255 → g ≤ 255 → b ≤ 255 → r ≤ r' →
        normalize (qRgb r g b) 255 ≤ normalize (qRgb r' g b) 255) ∧
    (∀ r g g' b, r ≤ 255 → g ≤ 255 → g' ≤ 255 → b ≤ 255 → g ≤ g' →
        normalize (qRgb r g b) 255 ≤ normalize (qRgb r g' b) 255) ∧
    (∀ r g b b', r ≤ 255 → g ≤ 255 → b ≤ 255 → b' ≤ 255 → b ≤ b' →
        normalize (qRgb r g b) 255 ≤ normalize (qRgb r g b') 255) := by
  refine ⟨by decide, by decide, ?_, ?_, ?_⟩
  · intro r r' g b hr hr' hg hb hle
    rw [normalize_qRgb r g b 255 hr hg hb, normalize_qRgb r' g b 255 hr' hg hb]
    omega
  · intro r g g' b hr hg hg' hb hle
    rw [normalize_qRgb r g b 255 hr hg hb, normalize_qRgb r g' b 255 hr hg' hb]
    omega
  · intro r g b b' hr hg hb hb' hle
    rw [normalize_qRgb r g b 255 hr hg hb, normalize_qRgb r g b' 255 hr hg hb']
    omega

/-- Witness for C7: the monotonicity clauses at concrete channel
increases. -/
theorem C7_normalize_monotone_witness :
    normalize (qRgb 10 20 30) 255 ≤ normalize (qRgb 200 20 30) 255 ∧
    normalize (qRgb 10 20 30) 255 ≤ normalize (qRgb 10 200 30) 255 ∧
    normalize (qRgb 10 20 30) 255 ≤ normalize (qRgb 10 20 200) 255 :=
  ⟨C7_normalize_monotone.2.2.1 10 200 20 30 (by decide) (by decide) (by decide)
      (by decide) (by decide),
   C7_normalize_monotone.2.2.2.1 10 20 200 30 (by decide) (by decide) (by decide)
      (by decide) (by decide),
   C7_normalize_monotone.2.2.2.2 10 20 30 200 (by decide) (by decide) (by decide)
      (by decide) (by decide)⟩

/-- Claim C9: for `from ≤ to ≤ 254` the loop of `getCharacters`
terminates after exactly `to − from + 1` iterations (that much fuel
yields the full ascending character list, one unit less is not enough),
and the bound `to ≤ 254` is required: the counter is an 8-bit value that
wraps past 255, so with `to = 255` the guard never fails and no amount of
fuel makes the loop return. -/
theorem C9_getCharacters_termination :
    (∀ f t : Nat, f ≤ t → t ≤ 254 →
        getCharsFuel (t - f + 1) f t = some (List.range' f (t - f + 1))) ∧
    (∀ f t : Nat, f ≤ t → t ≤ 255 → getCharsFuel (t - f) f t = none) ∧
    (∀ f : Nat, f ≤ 255 → charLoopDiverges f 255) := by
  refine ⟨?_, ?_, ?_⟩
  · intro f t h1 h2
    have h := getCharsFuel_term (t - f + 1) f t h2 h1 (by omega)
    rwa [show t + 1 - f = t - f + 1 by omega] at h
  · intro f t h1 h2
    exact getCharsFuel_none (t - f) f t h2 (by omega)
  · intro f hf fuel
    exact getCharsFuel_div255 fuel f hf

/-- Witness for C9 at the range 65..67 (three iterations) and at the
wrapping range 70..255. -/
theorem C9_getCharacters_termination_witness :
    getCharsFuel 3 65 67 = some [65, 66, 67] ∧
    getCharsFuel 2 65 67 = none ∧
    getCharsFuel 5 70 255 = none := by
  refine ⟨?_, ?_, ?_⟩
  · have h := C9_getCharacters_termination.1 65 67 (by decide) (by decide)
    simpa using h
  · have h := C9_getCharacters_termination.2.1 65 67 (by decide) (by decide)
    simpa using h
  · exact C9_getCharacters_termination.2.2 70 (by decide) 5

/-- Claim C1 (amended): for every valid invocation with
`from ≤ to ≤ 254`, the character collection terminates with the codes of
`[from, to]` in ascending order, and the font table built from it has
range fields exactly `(from, to)` and exactly `to − from + 1` character
bitmap entries, one per character code in ascending order.  (The claim's
original bound `to ≤ 255` fails: see the counterexample.) -/
theorem C1_fontTable_range_entries (env : QtEnv) (name : String) (size : Int)
    (f t : Nat) (h1 : f ≤ t) (h2 : t ≤ 254) :
    getCharsFuel 256 f t = some (List.range' f (t - f + 1)) ∧
    (buildFontTable env name size f t (List.range' f (t - f + 1))).rFrom = f ∧
    (buildFontTable env name size f t (List.range' f (t - f + 1))).rTo = t ∧
    (buildFontTable env name size f t (List.range' f (t - f + 1))).bitmaps.length
      = t - f + 1 ∧
    (buildFontTable env name size f t (List.range' f (t - f + 1))).bitmaps
      = (List.range' f (t - f + 1)).map
          (buildCharBitmap env name size (env.metrics name size).height) := by
  refine ⟨?_, rfl, rfl, ?_, rfl⟩
  · have h := getCharsFuel_term 256 f t h2 h1 (by omega)
    rwa [show t + 1 - f = t - f + 1 by omega] at h
  · simp [buildFontTable]

/-- Counterexample to C1 as stated: at the valid invocation
`from = 65, to = 255` (allowed by the claim's bound `to ≤ 255`) the
character-collection loop never terminates — the 8-bit counter wraps and
the guard `c <= to` always holds — so no font table with 191 entries is
ever emitted; the modelled run diverges with no output. -/
theorem C1_counterexample_to255 :
    charLoopDiverges 65 255 ∧
    mainRun envTest ["p", "65", "255", "T", "A", "Mono", "10"]
      = ⟨.diverges, []⟩ := by
  constructor
  · intro fuel
    exact getCharsFuel_div255 fuel 65 (by decide)
  · have hdiv : getCharsFuel 256 65 255 = none :=
      getCharsFuel_div255 256 65 (by decide)
    simp [mainRun, mainAfterParse, coerce255, hdiv, stoul, isSpaceChar,
      digitsToNat]

/-- Witness for the amended C1 at the range 65..67. -/
theorem C1_fontTable_range_entries_witness :
    getCharsFuel 256 65 67 = some [65, 66, 67] ∧
    (buildFontTable envTest "Mono" 10 65 67 [65, 66, 67]).rFrom = 65 ∧
    (buildFontTable envTest "Mono" 10 65 67 [65, 66, 67]).rTo = 67 ∧
    (buildFontTable envTest "Mono" 10 65 67 [65, 66, 67]).bitmaps.length = 3 := by
  have h := C1_fontTable_range_entries envTest "Mono" 10 65 67 (by decide) (by decide)
  have e : List.range' 65 (67 - 65 + 1) = [65, 66, 67] := by decide
  rw [e] at h
  exact ⟨h.1, h.2.1, h.2.2.1, h.2.2.2.1⟩

/-- Claim C8: within one font table every character bitmap has exactly
`lineHeight` rows and every row has exactly that bitmap's own width
cells; any two bitmaps of the same descriptor have identical row counts;
a zero advance width yields a width-0 bitmap whose rows are all empty
(no error); and widths of different characters may differ (exhibited by
a concrete environment with per-character widths). -/
theorem C8_bitmap_dimensions (env : QtEnv) (name : String) (size : Int)
    (f t : Nat) (cs : List Nat) :
    (∀ bm ∈ (buildFontTable env name size f t cs).bitmaps,
        bm.rows.length = (buildFontTable env name size f t cs).height ∧
        ∀ row ∈ bm.rows, row.length = bm.width) ∧
    (∀ bm1 ∈ (buildFontTable env name size f t cs).bitmaps,
      ∀ bm2 ∈ (buildFontTable env name size f t cs).bitmaps,
        bm1.rows.length = bm2.rows.length) ∧
    (∀ bm ∈ (buildFontTable env name size f t cs).bitmaps,
        bm.width = 0 → ∀ row ∈ bm.rows, row = []) ∧
    (buildFontTable envVarWidth "M" 1 1 2 [1, 2]).bitmaps.map (fun bm => bm.width)
      = [1, 2] := by
  have hshape : ∀ bm ∈ (buildFontTable env name size f t cs).bitmaps,
      bm.rows.length = (env.metrics name size).height ∧
      ∀ row ∈ bm.rows, row.length = bm.width := by
    intro bm hbm
    simp only [buildFontTable, List.mem_map] at hbm
    obtain ⟨c, _, rfl⟩ := hbm
    constructor
    · simp [buildCharBitmap]
    · intro row hrow
      simp only [buildCharBitmap, List.mem_map] at hrow
      obtain ⟨y, _, rfl⟩ := hrow
      simp [buildCharBitmap]
  refine ⟨hshape, ?_, ?_, by decide⟩
  · intro bm1 h1 bm2 h2
    rw [(hshape bm1 h1).1, (hshape bm2 h2).1]
  · intro bm hbm hw row hrow
    have := ((hshape bm hbm).2 row hrow)
    rw [hw] at this
    exact List.length_eq_zero.mp this

/-- Witness for C8: the single bitmap of a concrete one-character table
has one row (the line height) of one cell (its width). -/
theorem C8_bitmap_dimensions_witness :
    (buildCharBitmap envTest "Mono" 10 1 65).rows.length
      = (buildFontTable envTest "Mono" 10 65 65 [65]).height ∧
    ∀ row ∈ (buildCharBitmap envTest "Mono" 10 1 65).rows,
      row.length = (buildCharBitmap envTest "Mono" 10 1 65).width := by
  have h := (C8_bitmap_dimensions envTest "Mono" 10 65 65 [65]).1
    (buildCharBitmap envTest "Mono" 10 1 65) (by decide)
  exact h

/-- The token loop on a run of size tokens after a recorded name: every
size produces its own font table with that name and its int-narrowed
size. -/
lemma seqRun_all_sizes (env : QtEnv) (f t : Nat) (cs : List Nat) (name : String)
    (hname : name ≠ "") :
    ∀ (toks : List String) (ns : List Nat) (s0 : Int),
      List.Forall₂ (fun tok n => stoul tok = .ok n ∧ 0 < n) toks ns →
      seqRun env f t cs (name, s0) toks
        = (ns.map (fun n => buildFontTable env name (toIntCpp n) f t cs), false) := by
  intro toks ns s0 h
  induction h generalizing s0 with
  | nil => simp [seqRun]
  | cons h1 _ ih =>
    obtain ⟨hok, _⟩ := h1
    simp [seqRun, seqStep, hok, hname, ih]

/-- Claim C2 (amended): the descriptor sequencer, token by token.  A
token `stoul` cannot convert (it throws `invalid_argument`, which the
loop catches) becomes the current font name, replacing any previous
one, with no output.  A token parsing as a positive integer with no
font name recorded (the name is empty) produces no output.  A token
parsing as a positive integer with a name recorded produces exactly one
font table with that name and with that size narrowed from `unsigned
long` to `int` — which equals the parsed value whenever it is below
2^31 — and the name persists, so a run of size tokens after one name
token produces one table per size.  (The original claim's unqualified
"that size" fails for parsed values with bit 31 set: see the
counterexample.) -/
theorem C2_sequencer (env : QtEnv) (f t : Nat) (cs : List Nat) :
    (∀ (st : String × Int) (tok : String),
        stoul tok = .error .invalidArgument →
        seqStep env f t cs st tok = some ((tok, st.2), [])) ∧
    (∀ (st : String × Int) (tok : String) (n : Nat),
        stoul tok = .ok n → 0 < n → st.1 = "" →
        seqStep env f t cs st tok = some ((st.1, toIntCpp n), [])) ∧
    (∀ (st : String × Int) (tok : String) (n : Nat),
        stoul tok = .ok n → 0 < n → st.1 ≠ "" →
        seqStep env f t cs st tok
          = some ((st.1, toIntCpp n),
              [buildFontTable env st.1 (toIntCpp n) f t cs])) ∧
    (∀ n : Nat, n < 2 ^ 31 → toIntCpp n = n) ∧
    (∀ (name : String) (s0 : Int) (toks : List String) (ns : List Nat),
        name ≠ "" →
        List.Forall₂ (fun tok n => stoul tok = .ok n ∧ 0 < n) toks ns →
        seqRun env f t cs (name, s0) toks
          = (ns.map (fun n => buildFontTable env name (toIntCpp n) f t cs),
             false)) := by
  refine ⟨?_, ?_, ?_, ?_, ?_⟩
  · intro st tok h
    simp [seqStep, h]
  · intro st tok n hok _ hempty
    simp [seqStep, hok, hempty]
  · intro st tok n hok _ hname
    simp [seqStep, hok, hname]
  · intro n hn
    simp only [toIntCpp]
    rw [if_pos (show n % 2 ^ 32 < 2 ^ 31 by omega)]
    omega
  · intro name s0 toks ns hname h
    exact seqRun_all_sizes env f t cs name hname toks ns s0 h

/-- Counterexample to C2 as stated: with the name "Mono" recorded, the
token `2147483648` parses as the positive integer 2^31, but the emitted
font table's size field is the int-narrowed value −2147483648, not the
parsed size — `desc.size` is an `int`, so the `unsigned long` wraps. -/
theorem C2_counterexample_wrap :
    seqStep envTest 65 65 [65] ("Mono", 0) "2147483648"
      = some (("Mono", -2147483648),
          [buildFontTable envTest "Mono" (-2147483648) 65 65 [65]]) ∧
    (buildFontTable envTest "Mono" (-2147483648) 65 65 [65]).size
      ≠ (2147483648 : Int) := by
  exact ⟨rfl, by decide⟩

/-- Witness for C2: a name token, a size before any name, a size after a
name (the narrowing is the identity for 10 < 2^31), and a two-size run
after one name. -/
theorem C2_sequencer_witness :
    seqStep envTest 65 65 [65] ("", 0) "Mono" = some (("Mono", 0), []) ∧
    seqStep envTest 65 65 [65] ("", 0) "10" = some (("", 10), []) ∧
    seqStep envTest 65 65 [65] ("Mono", 0) "10"
      = some (("Mono", 10), [buildFontTable envTest "Mono" 10 65 65 [65]]) ∧
    toIntCpp 10 = 10 ∧
    seqRun envTest 65 65 [65] ("Mono", 0) ["10", "12"]
      = ([buildFontTable envTest "Mono" 10 65 65 [65],
          buildFontTable envTest "Mono" 12 65 65 [65]], false) := by
  refine ⟨?_, ?_, ?_, ?_, ?_⟩
  · exact (C2_sequencer envTest 65 65 [65]).1 ("", 0) "Mono" rfl
  · exact (C2_sequencer envTest 65 65 [65]).2.1 ("", 0) "10" 10 rfl
      (by decide) rfl
  · exact (C2_sequencer envTest 65 65 [65]).2.2.1 ("Mono", 0) "10" 10 rfl
      (by decide) (by decide)
  · exact (C2_sequencer envTest 65 65 [65]).2.2.2.1 10 (by decide)
  · exact (C2_sequencer envTest 65 65 [65]).2.2.2.2 "Mono" 0 ["10", "12"] [10, 12]
      (by decide)
      (List.Forall₂.cons ⟨rfl, by decide⟩
        (List.Forall₂.cons ⟨rfl, by decide⟩ List.Forall₂.nil))

/-- Claim C4, evaluated: the run `p 65 65 uint8_t arr Mono 10 12` emits
the fields in the fixed order (quoted name, size, line height,
range.from, range.to, then the bitmaps, each with width then its
comma-terminated rows), but each font-table entry is closed by a lone
tab-indented closing brace with no trailing comma — consecutive entries
are therefore not comma-separated, contradicting the output grammar the
spec and the tool's own purpose (an embeddable C++ array literal)
require. -/
theorem C4_serializer_eval :
    mainRun envTest ["p", "65", "65", "uint8_t", "arr", "Mono", "10", "12"]
      = ⟨.success,
         ["uint8_t arr = ", "\x7b",
          "\t\x7b", "\t\t\"Mono\",", "\t\t10,", "\t\t1,", "\t\t65,", "\t\t65,",
          "\t\t\x7b",
          "\t\t\t\x7b", "\t\t\t\t1,", "\t\t\t\t\x7b", "\t\t\t\t\t255,",
          "\t\t\t\t\x7d", "\t\t\t\x7d,",
          "\t\t\x7d", "\t\x7d",
          "\t\x7b", "\t\t\"Mono\",", "\t\t12,", "\t\t1,", "\t\t65,", "\t\t65,",
          "\t\t\x7b",
          "\t\t\t\x7b", "\t\t\t\t1,", "\t\t\t\t\x7b", "\t\t\t\t\t255,",
          "\t\t\t\t\x7d", "\t\t\t\x7d,",
          "\t\t\x7d", "\t\x7d",
          "\x7d;"]⟩ ∧
    (serializeFontTable (buildFontTable envTest "Mono" 10 65 65 [65])).getLast?
      = some "\t\x7d" := by
  exact ⟨by decide, by decide⟩

/-- Claim C5: the from and to arguments are parsed with `stoul`; any
parsed value greater than 255 is coerced to 0, and when the coerced from
exceeds the coerced to the process exits with failure having produced no
output at all. -/
theorem C5_invalid_range (env : QtEnv) (prog a1 a2 ty nm : String)
    (rest : List String) (f t : Nat)
    (hlen : 7 ≤ (prog :: a1 :: a2 :: ty :: nm :: rest).length)
    (h1 : stoul a1 = .ok f) (h2 : stoul a2 = .ok t)
    (hgt : coerce255 t < coerce255 f) :
    (255 < f → coerce255 f = 0) ∧
    (255 < t → coerce255 t = 0) ∧
    mainRun env (prog :: a1 :: a2 :: ty :: nm :: rest) = ⟨.failure, []⟩ := by
  have hcond : ¬ ((prog :: a1 :: a2 :: ty :: nm :: rest).length < 7) :=
    Nat.not_lt.2 hlen
  refine ⟨?_, ?_, ?_⟩
  · intro hf; simp [coerce255, Nat.not_le.2 hf]
  · intro ht; simp [coerce255, Nat.not_le.2 ht]
  · unfold mainRun
    rw [if_neg hcond]
    simp [h1, h2, mainAfterParse, hgt]

/-- Witness for C5 at `from = 1, to = 300`: 300 is coerced to 0, so the
coerced range is invalid and the run fails with no output. -/
theorem C5_invalid_range_witness :
    coerce255 300 = 0 ∧
    mainRun envTest ["p", "1", "300", "T", "A", "M", "9"] = ⟨.failure, []⟩ := by
  have h := C5_invalid_range envTest "p" "1" "300" "T" "A" ["M", "9"] 1 300
    (by decide) rfl rfl (by decide)
  exact ⟨h.2.1 (by decide), h.2.2⟩

/-- Claim C6: with fewer than 7 tokens (program name included) the
program prints exactly the usage message, exits with failure, and emits
no part of the array literal. -/
theorem C6_usage_error (env : QtEnv) (args : List String)
    (h : args.length < 7) :
    mainRun env args = ⟨.failure, [usageMsg (args.headD "")]⟩ := by
  simp [mainRun, h]

/-- Witness for C6 at a three-argument invocation. -/
theorem C6_usage_error_witness :
    mainRun envTest ["p", "1", "2"] = ⟨.failure, [usageMsg "p"]⟩ :=
  C6_usage_error envTest ["p", "1", "2"] (by decide)

/-- Claim C10: with at least 7 arguments the parses of `argv[1]` and
`argv[2]` are unguarded: when both `stoul` calls succeed no exception
escapes and control reaches the range check (`mainAfterParse`, whose
first step is the coercion and comparison); when either throws, the
exception is never caught, so the process terminates without printing
the usage message and without producing any output. -/
theorem C10_unguarded_parse (env : QtEnv) (prog a1 a2 ty nm : String)
    (rest : List String)
    (hlen : 7 ≤ (prog :: a1 :: a2 :: ty :: nm :: rest).length) :
    (∀ e, stoul a1 = .error e →
        mainRun env (prog :: a1 :: a2 :: ty :: nm :: rest) = ⟨.crash, []⟩) ∧
    (∀ f e, stoul a1 = .ok f → stoul a2 = .error e →
        mainRun env (prog :: a1 :: a2 :: ty :: nm :: rest) = ⟨.crash, []⟩) ∧
    (∀ f t, stoul a1 = .ok f → stoul a2 = .ok t →
        mainRun env (prog :: a1 :: a2 :: ty :: nm :: rest)
          = mainAfterParse env ty nm rest f t) := by
  have hcond : ¬ ((prog :: a1 :: a2 :: ty :: nm :: rest).length < 7) :=
    Nat.not_lt.2 hlen
  refine ⟨?_, ?_, ?_⟩
  · intro e h
    unfold mainRun
    rw [if_neg hcond]
    simp [h]
  · intro f e h1 h2
    unfold mainRun
    rw [if_neg hcond]
    simp [h1, h2]
  · intro f t h1 h2
    unfold mainRun
    rw [if_neg hcond]
    simp [h1, h2]

/-- Witness for C10: a malformed `from` crashes with no output, a
malformed `to` crashes with no output, and well-formed numerals reach
the range check. -/
theorem C10_unguarded_parse_witness :
    mainRun envTest ["p", "abc", "5", "T", "A", "M", "1"] = ⟨.crash, []⟩ ∧
    mainRun envTest ["p", "5", "abc", "T", "A", "M", "1"] = ⟨.crash, []⟩ ∧
    mainRun envTest ["p", "65", "65", "T", "A", "M", "1"]
      = mainAfterParse envTest "T" "A" ["M", "1"] 65 65 := by
  refine ⟨?_, ?_, ?_⟩
  · exact (C10_unguarded_parse envTest "p" "abc" "5" "T" "A" ["M", "1"]
      (by decide)).1 .invalidArgument rfl
  · exact (C10_unguarded_parse envTest "p" "5" "abc" "T" "A" ["M", "1"]
      (by decide)).2.1 5 .invalidArgument rfl rfl
  · exact (C10_unguarded_parse envTest "p" "65" "65" "T" "A" ["M", "1"]
      (by decide)).2.2 65 65 rfl rfl

end FontRenderer
